import Mathlib

/-!
Verification of the nicar25-python-scraping workshop notebooks.

The repository holds two Jupyter notebooks, each a straight-line scraping
pipeline: fetch a page, parse the HTML, locate the single table with a tag
search, walk the table rows extracting fixed-position cell text, and write
the collected records to a CSV file behind a fixed header row.

This file embeds the pieces those notebooks actually contain:
- the HTML tree search used by bs4 (find / find_all over descendants in
  document order), text extraction, and attribute lookup;
- the str.strip whitespace trimming applied to each cell;
- the csv module writer (excel dialect, minimal quoting, CRLF line
  terminator, a lone empty field quoted) together with a standard CSV
  reader, as used to write the output files;
- the two notebook top levels: the complete Senate press gallery pipeline
  (which extracts and writes row by row inside the open-file block), and
  the South Dakota WARN notebook whose extraction loop is an unfilled
  exercise skeleton (it only prints each row, so its collection list stays
  empty) followed by a one-shot write of the header and the collected rows.

Strings are modelled as lists of characters (Str) throughout; the text
handled here is small and pure, so nothing is lost in that encoding.
-/

abbrev Str := List Char

/-- Shorthand turning a string literal into the character-list encoding. -/
def lit (s : String) : Str := s.toList

/-- The ASCII whitespace characters removed by str.strip. -/
def isPySpace (c : Char) : Bool :=
  c = ' ' || c = '\t' || c = '\n' || c = '\r' || c = '\u000B' || c = '\u000C'

/-- Embedding of str.strip: drop whitespace from both ends of the text. -/
def strip (s : Str) : Str :=
  ((s.dropWhile isPySpace).reverse.dropWhile isPySpace).reverse

/-! ## The csv module writer (excel dialect, QUOTE_MINIMAL) -/

/-- Characters that force a field to be quoted under minimal quoting: the
delimiter, the quote character and the line-break characters. -/
def isCsvSpecial (c : Char) : Bool :=
  c = ',' || c = '"' || c = '\r' || c = '\n'

/-- A field needs quoting exactly when it contains a special character. -/
def needsQuote (f : Str) : Bool := f.any isCsvSpecial

/-- Inside a quoted field every quote character is doubled. -/
def escapeQ : Str → Str
  | [] => []
  | c :: r => if c = '"' then '"' :: '"' :: escapeQ r else c :: escapeQ r

/-- Serialize one field: wrap it in quotes, doubling interior quotes, when
it contains a special character; otherwise emit it verbatim. -/
def writeField (f : Str) : Str :=
  if needsQuote f then '"' :: (escapeQ f ++ ['"']) else f

/-- Join serialized fields with the comma delimiter. -/
def joinComma : List Str → Str
  | [] => []
  | [f] => f
  | f :: fs => f ++ ',' :: joinComma fs

/-- Serialize one record.  As the csv module does, a record consisting of a
single empty field is written as a pair of quotes, keeping it distinct from
the blank line produced by an empty record. -/
def writeRec (r : List Str) : Str :=
  if r = [[]] then ['"', '"'] else joinComma (r.map writeField)

/-- The writer line terminator of the excel dialect. -/
def crlf : Str := ['\r', '\n']

/-- One CSV line: a serialized record plus the line terminator. -/
def csvLine (r : List Str) : Str := writeRec r ++ crlf

/-- Serialize a list of records, one line each. -/
def writeCsv (recs : List (List Str)) : Str := (recs.map csvLine).join

/-! ## A standard CSV reader -/

/-- Read a quoted field, given the input just after the opening quote.  A
doubled quote stands for one quote character; a single quote ends the
field.  Returns the field and the unconsumed input. -/
def parseQuoted : Str → Str × Str
  | [] => ([], [])
  | '"' :: '"' :: rest =>
      let p := parseQuoted rest
      ('"' :: p.1, p.2)
  | '"' :: rest => ([], rest)
  | c :: rest =>
      let p := parseQuoted rest
      (c :: p.1, p.2)

/-- A character that ends an unquoted field. -/
def isSep (c : Char) : Bool := c = ',' || c = '\r' || c = '\n'

/-- Read an unquoted field: everything up to a delimiter, a line break or
the end of the input. -/
def parseUnquoted : Str → Str × Str
  | [] => ([], [])
  | c :: rest =>
      if isSep c then ([], c :: rest)
      else
        let p := parseUnquoted rest
        (c :: p.1, p.2)

/-- Read one field, quoted or unquoted. -/
def parseField (l : Str) : Str × Str :=
  if l.head? = some '"' then parseQuoted l.tail else parseUnquoted l

/-- Read one record: fields separated by commas, ending at a line break or
at the end of the input. -/
def parseRecord (l : Str) : List Str × Str :=
  if (parseField l).2.head? = some ',' then
    ((parseField l).1 :: (parseRecord (parseField l).2.tail).1,
      (parseRecord (parseField l).2.tail).2)
  else
    ([(parseField l).1], (parseField l).2)
termination_by l.length
decreasing_by
  rename_i h
  have hq : ∀ m : Str, (parseQuoted m).2.length ≤ m.length := by
    intro m
    induction m using parseQuoted.induct <;> simp_all [parseQuoted] <;> omega
  have hu : ∀ m : Str, (parseUnquoted m).2.length ≤ m.length := by
    intro m
    induction m using parseUnquoted.induct <;> simp_all [parseUnquoted] <;> omega
  have hf : (parseField l).2.length ≤ l.length := by
    unfold parseField
    split
    · have h1 := hq l.tail
      have h2 : l.tail.length ≤ l.length := by cases l <;> simp
      omega
    · exact hu l
  cases hp : (parseField l).2 with
  | nil => rw [hp] at h; simp at h
  | cons a r =>
      rw [hp] at hf
      simp only [hp, List.tail_cons]
      simp only [List.length_cons] at hf
      omega

/-- The input begins with a line-break character. -/
def startsNL : Str → Bool
  | [] => false
  | c :: _ => c = '\r' || c = '\n'

/-- Drop one line terminator (CRLF, CR or LF) from the front of the input. -/
def dropNL (l : Str) : Str :=
  if l.head? = some '\r' then
    if l.tail.head? = some '\n' then l.tail.tail else l.tail
  else if l.head? = some '\n' then l.tail
  else l

/-- Read all records of a CSV document.  A blank line yields the empty
record, as the Python csv reader does. -/
def parseRecords (l : Str) : List (List Str) :=
  if l = [] then []
  else if startsNL l then [] :: parseRecords (dropNL l)
  else (parseRecord l).1 :: parseRecords (dropNL (parseRecord l).2)
termination_by l.length
decreasing_by
  · rename_i h0 h1
    cases l with
    | nil => simp [startsNL] at h1
    | cons c t =>
      simp only [startsNL, Bool.or_eq_true, decide_eq_true_eq] at h1
      unfold dropNL
      have h2 : (c :: t).tail.tail.length ≤ t.length := by cases t <;> simp
      rcases h1 with h | h
      · subst h
        rw [if_pos (by simp)]
        split
        · simp only [List.tail_cons, List.length_cons] at h2 ⊢
          omega
        · simp
      · subst h
        rw [if_neg (by simp), if_pos (by simp)]
        simp
  · rename_i h0 h1
    have h1x : startsNL l = false := by simpa using h1
    have hq : ∀ m : Str, (parseQuoted m).2.length ≤ m.length := by
      intro m
      induction m using parseQuoted.induct <;> simp_all [parseQuoted] <;> omega
    have hu : ∀ m : Str, (parseUnquoted m).2.length ≤ m.length := by
      intro m
      induction m using parseUnquoted.induct <;> simp_all [parseUnquoted] <;> omega
    have hf : ∀ m : Str, (parseField m).2.length ≤ m.length := by
      intro m
      unfold parseField
      split
      · have ha := hq m.tail
        have hb : m.tail.length ≤ m.length := by cases m <;> simp
        omega
      · exact hu m
    have hrl : ∀ m : Str, (parseRecord m).2.length ≤ m.length := by
      intro m
      induction m using parseRecord.induct with
      | case1 x h ih =>
          have hl := hf x
          rw [parseRecord]
          simp only [if_pos h]
          have ht : (parseField x).2.tail.length ≤ (parseField x).2.length := by
            cases hp : (parseField x).2 <;> simp
          omega
      | case2 x h =>
          have hl := hf x
          rw [parseRecord]
          simp only [if_neg h]
          exact hl
    have hfp : ∀ m : Str, m ≠ [] → startsNL m = false →
        (parseField m).2.length < m.length ∨
          ((parseField m).2 = m ∧ m.head? = some ',') := by
      intro m hm0 hm1
      cases m with
      | nil => exact absurd rfl hm0
      | cons c rest =>
        unfold parseField
        by_cases hc : c = '"'
        · subst hc
          left
          have := hq rest
          simp only [List.head?_cons, List.tail_cons, if_true]
          simp only [List.length_cons]
          omega
        · rw [if_neg (by simp [hc])]
          unfold parseUnquoted
          by_cases hs : isSep c
          · rw [if_pos hs]
            right
            refine ⟨rfl, ?_⟩
            simp only [startsNL, Bool.or_eq_true, decide_eq_true_eq] at hm1
            simp only [isSep, Bool.or_eq_true, decide_eq_true_eq] at hs
            simp only [List.head?_cons, Option.some.injEq]
            rcases hs with (h | h) | h
            · exact h
            · simp [h] at hm1
            · simp [h] at hm1
          · rw [if_neg hs]
            have := hu rest
            left
            simp only [List.length_cons]
            omega
    have hrp : (parseRecord l).2.length < l.length := by
      rw [parseRecord]
      split
      · rename_i hc
        have h2 := hrl (parseField l).2.tail
        have h3 : (parseField l).2 ≠ [] := by
          intro he
          rw [he] at hc
          simp at hc
        have h4 : (parseField l).2.tail.length = (parseField l).2.length - 1 := by
          cases (parseField l).2 <;> simp_all
        have h5 := hf l
        have h6 : 0 < (parseField l).2.length := List.length_pos.mpr h3
        have h7 : 0 < l.length := List.length_pos.mpr h0
        simp only
        omega
      · rename_i hc
        rcases hfp l h0 h1x with h | ⟨he, hh⟩
        · simpa using h
        · rw [he] at hc
          exact absurd hh hc
    have hd : ∀ m : Str, (dropNL m).length ≤ m.length := by
      intro m
      unfold dropNL
      have ha : m.tail.length ≤ m.length := by cases m <;> simp
      have hb : m.tail.tail.length ≤ m.tail.length := by cases hm : m.tail <;> simp
      split
      · split
        · omega
        · omega
      · split
        · omega
        · omega
    have := hd (parseRecord l).2
    omega

/-- The input begins with a field separator, or is exhausted. -/
def sepStartB : Str → Bool
  | [] => true
  | c :: _ => isSep c

/-- The input begins with a line break, or is exhausted. -/
def nlStartB : Str → Bool
  | [] => true
  | c :: _ => c = '\r' || c = '\n'

/-! ## The HTML tree and the bs4 search operations -/

/-- A parsed HTML node: a text node, or an element with a tag name, an
attribute list, and children in document order. -/
inductive Node where
  | text (s : Str)
  | elem (tag : Str) (attrs : List (Str × Str)) (children : List Node)

mutual

/-- All nodes with the given tag in the subtree rooted at the node, the
node itself included, in document order. -/
def nodeFindAll (tag : Str) : Node → List Node
  | .text _ => []
  | .elem t a c =>
      (if t = tag then [Node.elem t a c] else []) ++ nodesFindAll tag c

/-- All nodes with the given tag inside a forest, in document order. -/
def nodesFindAll (tag : Str) : List Node → List Node
  | [] => []
  | n :: ns => nodeFindAll tag n ++ nodesFindAll tag ns

end

/-- The find_all method of a bs4 element: matching descendants of the node,
in document order, the node itself excluded. -/
def Node.findAll (tag : Str) : Node → List Node
  | .text _ => []
  | .elem _ _ c => nodesFindAll tag c

/-- The find method of a bs4 element: the first matching descendant, or the
none result when the search yields nothing. -/
def Node.find (tag : Str) (n : Node) : Option Node :=
  (Node.findAll tag n).head?

/-- The find method of the soup object itself, whose descendants are all
top-level nodes of the parsed document and their subtrees. -/
def soupFind (tag : Str) (soup : List Node) : Option Node :=
  (nodesFindAll tag soup).head?

mutual

/-- The text attribute of a bs4 node: all descendant text concatenated in
document order. -/
def nodeText : Node → Str
  | .text s => s
  | .elem _ _ c => nodesText c

/-- Concatenated text of a forest of nodes. -/
def nodesText : List Node → Str
  | [] => []
  | n :: ns => nodeText n ++ nodesText ns

end

/-- Attribute lookup on an element node. -/
def Node.attr (n : Node) (key : Str) : Option Str :=
  match n with
  | .text _ => none
  | .elem _ attrs _ => (attrs.find? (fun p => decide (p.1 = key))).map (fun p => p.2)

mutual

/-- Whether the subtree rooted at the node holds an element with the tag. -/
def nodeHasTag (tag : Str) : Node → Bool
  | .text _ => false
  | .elem t _ c => decide (t = tag) || nodesHasTag tag c

/-- Whether a forest holds an element with the tag. -/
def nodesHasTag (tag : Str) : List Node → Bool
  | [] => false
  | n :: ns => nodeHasTag tag n || nodesHasTag tag ns

end

/-! ## The two notebook pipelines -/

def tableTag : Str := lit "table"

def trTag : Str := lit "tr"

def tdTag : Str := lit "td"

def aTag : Str := lit "a"

def hrefAttr : Str := lit "href"

/-- The fixed CSV header list of the Senate press gallery notebook. -/
def senateHeaders : List Str := [lit "first", lit "last", lit "affiliation"]

/-- Per-row extraction of the Senate notebook: the first three td cells of
the row give first name, last name and affiliation, each stripped.  The
none result models the IndexError raised when a row has fewer than three
data cells. -/
def senateExtract (row : Node) : Option (List Str) :=
  match (Node.findAll tdTag row)[0]?, (Node.findAll tdTag row)[1]?,
      (Node.findAll tdTag row)[2]? with
  | some c0, some c1, some c2 =>
      some [strip (nodeText c0), strip (nodeText c1), strip (nodeText c2)]
  | _, _, _ => none

/-- The record produced from a row with enough cells: the stripped text of
its first three td cells, in position order. -/
def senateRow (row : Node) : List Str :=
  ((Node.findAll tdTag row).take 3).map (fun c => strip (nodeText c))

/-- The write loop of the Senate notebook: for each row, extract the three
fields and append one CSV line to the already open file.  A row with too
few cells raises inside the loop, so the function returns the file content
written up to that point together with a success flag. -/
def senateWriteLoop : List Node → Str → Str × Bool
  | [], file => (file, true)
  | row :: rs, file =>
      match senateExtract row with
      | none => (file, false)
      | some fields => senateWriteLoop rs (file ++ csvLine fields)

/-- Outcome of one pipeline run: normal completion with the file content,
an abort during row extraction with the incompletely written file content, or
an abort before the file was opened because no table was found. -/
inductive RunResult where
  | ok (file : Str)
  | rowError (file : Str)
  | tableNotFound

/-- The output-file content left on disk by a run, if any file was opened. -/
def RunResult.fileState : RunResult → Option Str
  | .ok f => some f
  | .rowError f => some f
  | .tableNotFound => none

/-- The Senate press gallery pipeline over the parsed page: find the first
table, take its rows minus the leading header row, then write the header
line and one line per row inside the open-file block.  When no table is
found, the attribute access on the none result raises before the output
file is opened. -/
def senatePipeline (soup : List Node) : RunResult :=
  match soupFind tableTag soup with
  | none => .tableNotFound
  | some tbl =>
      match senateWriteLoop ((Node.findAll trTag tbl).drop 1) (csvLine senateHeaders) with
      | (file, true) => .ok file
      | (file, false) => .rowError file

/-- The fixed CSV header list of the South Dakota WARN notebook. -/
def sdwarnHeaders : List Str :=
  [lit "company", lit "location", lit "date", lit "employees_laid_off", lit "url"]

/-- The extraction loop of the South Dakota WARN notebook as shipped: the
body only prints the row, so the accumulator list is never extended. -/
def sdwarnLoop : List Node → List (List Str) → List (List Str)
  | [], acc => acc
  | _ :: rs, acc => sdwarnLoop rs acc

/-- The South Dakota WARN pipeline over the parsed page: find the first
table, run the print-only loop over its rows to build the collection list,
then write the header line and the collected rows in one scoped step. -/
def sdwarnPipeline (soup : List Node) : RunResult :=
  match soupFind tableTag soup with
  | none => .tableNotFound
  | some tbl =>
      .ok (csvLine sdwarnHeaders ++ writeCsv (sdwarnLoop (Node.findAll trTag tbl) []))

/-- The keyword arguments of the open call in a write step. -/
structure OpenArgs where
  path : Str
  mode : Str
  newline : Option Str
  encoding : Option Str

/-- Arguments of the Senate notebook open call: write mode and an empty
newline argument, with no encoding argument given. -/
def senateOpenArgs : OpenArgs :=
  { path := lit "us-senate-press-gallery.csv", mode := lit "w",
    newline := some [], encoding := none }

/-- Arguments of the South Dakota WARN notebook open call: write mode, an
empty newline argument, and an explicit utf-8 encoding. -/
def sdwarnOpenArgs : OpenArgs :=
  { path := lit "sd-warn-notices.csv", mode := lit "w",
    newline := some [], encoding := some (lit "utf-8") }

/-! ## Link resolution, modelled from the spec

The South Dakota WARN loop body in the source is an unfilled exercise
skeleton (comments plus a print), so the link handling the spec describes
-- take the href of a link in the row when one is present, resolve it
against the page base URL with urljoin, and leave the field empty when no
link is present -- is modelled here from the words of the spec. -/

/-- Split a URL right after the scheme separator, returning the part up to
and including the separator and the remainder, when the separator occurs. -/
def breakScheme : Str → Option (Str × Str)
  | [] => none
  | ':' :: '/' :: '/' :: r => some ([':', '/', '/'], r)
  | c :: r =>
      match breakScheme r with
      | some p => some (c :: p.1, p.2)
      | none => none

/-- Everything up to and including the last slash of a path. -/
def dirname (p : Str) : Str :=
  (p.reverse.dropWhile (fun c => decide (c ≠ '/'))).reverse

/-- Whether the needle occurs somewhere inside the haystack. -/
def hasInfix (needle : Str) : Str → Bool
  | [] => decide (needle = [])
  | c :: r => needle.isPrefixOf (c :: r) || hasInfix needle r

/-- Modelled from the spec: resolve a relative reference against a base
URL, as urljoin does for the cases the spec describes.  An already absolute
reference stands; a root-relative reference replaces the path of the base;
any other reference replaces the last path segment of the base. -/
def urljoin (base ref : Str) : Str :=
  if ref = [] then base
  else if hasInfix (lit "://") ref then ref
  else
    match breakScheme base with
    | none => ref
    | some (pre, rest) =>
        if ref.head? = some '/' then
          pre ++ rest.takeWhile (fun c => decide (c ≠ '/')) ++ ref
        else
          pre ++ rest.takeWhile (fun c => decide (c ≠ '/'))
            ++ dirname (rest.dropWhile (fun c => decide (c ≠ '/'))) ++ ref

/-- Modelled from the spec: the url field of one extracted row.  When the
row holds a link, its href resolved against the base URL; otherwise the
empty field. -/
def rowUrlField (base : Str) (row : Node) : Str :=
  match Node.find aTag row with
  | some a => urljoin base ((Node.attr a hrefAttr).getD [])
  | none => []

/-! ## Concrete fixtures used by the closed theorems -/

/-- A td cell holding one text node. -/
def tdCellS (s : String) : Node := Node.elem tdTag [] [Node.text (lit s)]

def hdrRow : Node := Node.elem trTag [] [tdCellS "First", tdCellS "Last", tdCellS "Affiliation"]

def janeRow : Node := Node.elem trTag [] [tdCellS "Jane", tdCellS "Doe", tdCellS "AP"]

def bobRow : Node := Node.elem trTag [] [tdCellS "Bob", tdCellS "Roe", tdCellS "Reuters"]

/-- A malformed data row with a single cell: extraction of its second cell
raises in the source. -/
def shortRow : Node := Node.elem trTag [] [tdCellS "only"]

/-- A row whose cells carry surrounding whitespace. -/
def messyRow : Node := Node.elem trTag [] [tdCellS "  Acme Corp \n", tdCellS " B ", tdCellS "C"]

def tblTwoRows : Node := Node.elem tableTag [] [hdrRow, janeRow, bobRow]

def soupTwoRows : List Node := [tblTwoRows]

def tblPartial : Node := Node.elem tableTag [] [hdrRow, janeRow, shortRow]

def soupPartialWrite : List Node := [tblPartial]

def soupNoTable : List Node :=
  [Node.elem (lit "html") [] [Node.elem (lit "p") [] [Node.text (lit "hello")]]]

def tblHeaderOnly : Node := Node.elem tableTag [] [hdrRow]

def soupHeaderOnly : List Node := [tblHeaderOnly]

def aLink : Node := Node.elem aTag [(lit "href", lit "/docs/report.pdf")] [Node.text (lit "report")]

def rowWithLink : Node := Node.elem trTag [] [tdCellS "X", Node.elem tdTag [] [aLink]]

def rowNoLink : Node := Node.elem trTag [] [tdCellS "X", tdCellS "Y"]

/-! ## Support lemmas for the CSV round trip -/

theorem parseQuoted_escape (f : Str) (rest : Str) (hrest : rest.head? ≠ some '"') :
    parseQuoted (escapeQ f ++ '"' :: rest) = (f, rest) := by
  induction f with
  | nil =>
      simp only [escapeQ, List.nil_append]
      match rest, hrest with
      | [], _ => rfl
      | c :: t, hrest =>
          have hc : c ≠ '"' := by
            intro he
            exact hrest (by simp [he])
          simp [parseQuoted, hc]
  | cons c f' ih =>
      by_cases hc : c = '"'
      · subst hc
        simp only [escapeQ, if_pos rfl, List.cons_append]
        simp [parseQuoted, List.append_eq, ih]
      · simp only [escapeQ, if_neg hc, List.cons_append]
        simp [parseQuoted, hc, List.append_eq, ih]

theorem parseUnquoted_clean (f rest : Str) (hf : needsQuote f = false)
    (hrest : sepStartB rest = true) : parseUnquoted (f ++ rest) = (f, rest) := by
  induction f with
  | nil =>
      match rest, hrest with
      | [], _ => rfl
      | c :: t, hrest =>
          simp only [sepStartB] at hrest
          simp [parseUnquoted, hrest]
  | cons c f' ih =>
      simp only [needsQuote, List.any_cons, Bool.or_eq_false_iff] at hf
      have hs : isSep c = false := by
        have h1 := hf.1
        simp only [isCsvSpecial, Bool.or_eq_false_iff, decide_eq_false_iff_not] at h1
        simp only [isSep, Bool.or_eq_false_iff, decide_eq_false_iff_not]
        exact ⟨⟨h1.1.1.1, h1.1.2⟩, h1.2⟩
      simp only [List.cons_append, parseUnquoted, hs, Bool.false_eq_true, if_false,
        List.append_eq]
      rw [ih (by simpa [needsQuote] using hf.2)]

theorem sepStartB_not_quote (rest : Str) (h : sepStartB rest = true) :
    rest.head? ≠ some '"' := by
  match rest, h with
  | [], _ => simp
  | c :: t, h =>
      simp only [sepStartB, isSep, Bool.or_eq_true, decide_eq_true_eq] at h
      simp only [List.head?_cons, Option.some.injEq]
      rcases h with (h | h) | h <;> simp [h]

theorem parseField_write (f rest : Str) (hrest : sepStartB rest = true) :
    parseField (writeField f ++ rest) = (f, rest) := by
  by_cases hq : needsQuote f
  · simp only [writeField, if_pos hq, List.cons_append, List.append_assoc,
      List.singleton_append]
    simp only [parseField, List.head?_cons, List.tail_cons, if_true]
    exact parseQuoted_escape f rest (sepStartB_not_quote rest hrest)
  · simp only [writeField, if_neg hq]
    match f, hq with
    | [], _ =>
        simp only [List.nil_append]
        rw [parseField]
        rw [if_neg (sepStartB_not_quote rest hrest)]
        exact parseUnquoted_clean [] rest rfl hrest
    | c :: f', hq =>
        have hc : c ≠ '"' := by
          intro he
          subst he
          simp [needsQuote, isCsvSpecial] at hq
        rw [parseField]
        rw [if_neg (by simpa using hc)]
        exact parseUnquoted_clean (c :: f') rest (by simpa using hq) hrest

theorem nlStartB_sep (rest : Str) (h : nlStartB rest = true) : sepStartB rest = true := by
  match rest, h with
  | [], _ => rfl
  | c :: t, h =>
      simp only [nlStartB, Bool.or_eq_true, decide_eq_true_eq] at h
      simp only [sepStartB, isSep, Bool.or_eq_true, decide_eq_true_eq]
      rcases h with h | h
      · exact Or.inl (Or.inr h)
      · exact Or.inr h

theorem nlStartB_not_comma (rest : Str) (h : nlStartB rest = true) :
    rest.head? ≠ some ',' := by
  match rest, h with
  | [], _ => simp
  | c :: t, h =>
      simp only [nlStartB, Bool.or_eq_true, decide_eq_true_eq] at h
      simp only [List.head?_cons, Option.some.injEq]
      rcases h with h | h <;> simp [h]

theorem parseRecord_join (r : List Str) (hr : r ≠ []) (rest : Str)
    (hrest : nlStartB rest = true) :
    parseRecord (joinComma (r.map writeField) ++ rest) = (r, rest) := by
  induction r with
  | nil => exact absurd rfl hr
  | cons f fs ih =>
      match fs with
      | [] =>
          simp only [List.map_cons, List.map_nil, joinComma]
          rw [parseRecord]
          rw [parseField_write f rest (nlStartB_sep rest hrest)]
          simp only
          rw [if_neg (nlStartB_not_comma rest hrest)]
      | f2 :: fs' =>
          have h1 : joinComma ((f :: f2 :: fs').map writeField) ++ rest
              = writeField f ++ (',' :: (joinComma ((f2 :: fs').map writeField) ++ rest)) := by
            show (writeField f ++ ',' :: joinComma ((f2 :: fs').map writeField)) ++ rest = _
            rw [List.append_assoc]
            rfl
          rw [h1]
          rw [parseRecord]
          rw [parseField_write f _ (by simp [sepStartB, isSep])]
          dsimp only
          simp only [List.head?_cons, List.tail_cons, if_true]
          rw [ih (by simp)]

theorem parseRecord_writeRec (r : List Str) (hr : r ≠ []) (rest : Str)
    (hrest : nlStartB rest = true) :
    parseRecord (writeRec r ++ rest) = (r, rest) := by
  by_cases he : r = [[]]
  · subst he
    rw [writeRec, if_pos rfl]
    rw [parseRecord]
    have hfield : parseField (['"', '"'] ++ rest) = ([], rest) := by
      rw [parseField]
      simp only [List.cons_append, List.head?_cons, List.tail_cons, if_true]
      match rest, hrest with
      | [], _ => rfl
      | c :: t, hrest =>
          have hc : c ≠ '"' := by
            simp only [nlStartB, Bool.or_eq_true, decide_eq_true_eq] at hrest
            rcases hrest with h | h <;> simp [h]
          simp [parseQuoted, hc]
    rw [hfield]
    dsimp only
    rw [if_neg (nlStartB_not_comma rest hrest)]
  · rw [writeRec, if_neg he]
    exact parseRecord_join r hr rest hrest

theorem writeField_ne_nil (f : Str) (hf : f ≠ []) : writeField f ≠ [] := by
  rw [writeField]
  split
  · simp
  · exact hf

theorem writeField_head_not_nl (f : Str) (c : Char) (t : Str)
    (h : writeField f = c :: t) : c ≠ '\r' ∧ c ≠ '\n' := by
  rw [writeField] at h
  split at h
  · rw [List.cons.injEq] at h
    rw [← h.1]
    simp
  · rename_i hq
    have hc : isCsvSpecial c = false := by
      have : c ∈ f := by rw [h]; simp
      simpa [needsQuote] using List.any_eq_false.mp (by simpa [needsQuote] using hq) c this
    simp only [isCsvSpecial, Bool.or_eq_false_iff, decide_eq_false_iff_not] at hc
    exact ⟨hc.1.2, hc.2⟩

theorem writeRec_head (r : List Str) (hr : r ≠ []) :
    ∃ c t, writeRec r = c :: t ∧ c ≠ '\r' ∧ c ≠ '\n' := by
  rw [writeRec]
  split
  · exact ⟨'"', ['"'], rfl, by simp, by simp⟩
  · rename_i hne
    match r, hr with
    | f :: fs, _ =>
      match fs with
      | [] =>
          have hf : f ≠ [] := by
            intro h0
            exact hne (by rw [h0])
          match hw : writeField f with
          | [] => exact absurd hw (writeField_ne_nil f hf)
          | c :: t =>
              have hnl := writeField_head_not_nl f c t hw
              exact ⟨c, t, by simp [joinComma, hw], hnl.1, hnl.2⟩
      | f2 :: fs' =>
          match hw : writeField f with
          | [] =>
              refine ⟨',', joinComma ((f2 :: fs').map writeField), ?_, by simp, by simp⟩
              simp [joinComma, hw]
          | c :: t =>
              have hnl := writeField_head_not_nl f c t hw
              refine ⟨c, t ++ ',' :: joinComma ((f2 :: fs').map writeField), ?_, hnl.1, hnl.2⟩
              simp [joinComma, hw]

/-! ## Support lemmas for the tree search and the pipelines -/

mutual

theorem nodeFindAll_nil (tag : Str) : (n : Node) → nodeHasTag tag n = false →
    nodeFindAll tag n = []
  | .text _, _ => rfl
  | .elem t a c, h => by
      simp only [nodeHasTag, Bool.or_eq_false_iff, decide_eq_false_iff_not] at h
      simp only [nodeFindAll]
      rw [if_neg h.1, nodesFindAll_nil tag c h.2]
      rfl

theorem nodesFindAll_nil (tag : Str) : (l : List Node) → nodesHasTag tag l = false →
    nodesFindAll tag l = []
  | [], _ => rfl
  | n :: ns, h => by
      simp only [nodesHasTag, Bool.or_eq_false_iff] at h
      simp only [nodesFindAll]
      rw [nodeFindAll_nil tag n h.1, nodesFindAll_nil tag ns h.2]
      rfl

end

theorem senateExtract_of_len (row : Node) (h : 3 ≤ (Node.findAll tdTag row).length) :
    senateExtract row = some (senateRow row) := by
  rw [senateExtract, senateRow]
  match hc : Node.findAll tdTag row with
  | c0 :: c1 :: c2 :: rest => simp
  | [] => rw [hc] at h; simp at h
  | [c0] => rw [hc] at h; simp at h
  | [c0, c1] => rw [hc] at h; simp at h

theorem senateExtract_some (row : Node) (fields : List Str)
    (h : senateExtract row = some fields) : fields = senateRow row := by
  rw [senateExtract] at h
  rw [senateRow]
  match hc : Node.findAll tdTag row with
  | c0 :: c1 :: c2 :: rest =>
      rw [hc] at h
      simp at h
      simp [← h]
  | [] => rw [hc] at h; simp at h
  | [c0] => rw [hc] at h; simp at h
  | [c0, c1] => rw [hc] at h; simp at h

theorem sdwarnLoop_acc (rows : List Node) (acc : List (List Str)) :
    sdwarnLoop rows acc = acc := by
  induction rows with
  | nil => rfl
  | cons r rs ih => simpa [sdwarnLoop] using ih

theorem senateWriteLoop_ok (rows : List Node) (file : Str)
    (h : ∀ r ∈ rows, 3 ≤ (Node.findAll tdTag r).length) :
    senateWriteLoop rows file = (file ++ writeCsv (rows.map senateRow), true) := by
  induction rows generalizing file with
  | nil => simp [senateWriteLoop, writeCsv]
  | cons r rs ih =>
      rw [senateWriteLoop]
      rw [senateExtract_of_len r (h r (by simp))]
      dsimp only
      rw [ih (file ++ csvLine (senateRow r)) (fun x hx => h x (by simp [hx]))]
      simp [writeCsv, List.append_assoc]

theorem senateWriteLoop_fail (good : List Node) (bad : Node) (rest : List Node)
    (file : Str) (hg : ∀ r ∈ good, 3 ≤ (Node.findAll tdTag r).length)
    (hb : senateExtract bad = none) :
    senateWriteLoop (good ++ bad :: rest) file =
      (file ++ writeCsv (good.map senateRow), false) := by
  induction good generalizing file with
  | nil =>
      simp only [List.nil_append, senateWriteLoop, hb]
      simp [writeCsv]
  | cons g gs ih =>
      simp only [List.cons_append, senateWriteLoop]
      rw [senateExtract_of_len g (hg g (by simp))]
      dsimp only
      simp only [List.append_eq]
      rw [ih (file ++ csvLine (senateRow g)) (fun x hx => hg x (by simp [hx]))]
      simp [writeCsv, List.append_assoc]

/-! ## Claim theorems -/

/-- Claim C1: for every fetched page whose located table consists of one
leading header row followed by the data rows, the Senate pipeline writes a
CSV holding the fixed header line first and then exactly one line per data
row, in the document order of the table, with no re-sorting. -/
theorem senate_pipeline_one_line_per_row (soup : List Node) (tbl hdr : Node)
    (dataRows : List Node)
    (hfind : soupFind tableTag soup = some tbl)
    (hrows : Node.findAll trTag tbl = hdr :: dataRows)
    (hcells : ∀ r ∈ dataRows, 3 ≤ (Node.findAll tdTag r).length) :
    senatePipeline soup =
      RunResult.ok (csvLine senateHeaders ++ writeCsv (dataRows.map senateRow)) ∧
    (dataRows.map senateRow).length = dataRows.length := by
  constructor
  · unfold senatePipeline
    rw [hfind]
    dsimp only
    rw [hrows]
    simp only [List.drop_succ_cons, List.drop_zero]
    rw [senateWriteLoop_ok dataRows _ hcells]
  · simp

/-- Witness for claim C1 on a fixture table of a header row and two data
rows. -/
theorem senate_pipeline_one_line_per_row_witness :
    senatePipeline soupTwoRows =
      RunResult.ok (csvLine senateHeaders ++ writeCsv ([janeRow, bobRow].map senateRow)) ∧
    ([janeRow, bobRow].map senateRow).length = ([janeRow, bobRow] : List Node).length :=
  senate_pipeline_one_line_per_row soupTwoRows tblTwoRows hdrRow [janeRow, bobRow]
    rfl rfl (by decide)

/-- Claim C2: when the fetched page holds no table element, the locator
returns the not-found result, both pipelines signal the table-not-found
condition, and no output file is emitted at all (in particular no silently
written empty file). -/
theorem missing_table_not_found (soup : List Node)
    (h : nodesHasTag tableTag soup = false) :
    soupFind tableTag soup = none ∧
      senatePipeline soup = RunResult.tableNotFound ∧
      sdwarnPipeline soup = RunResult.tableNotFound ∧
      RunResult.fileState (senatePipeline soup) = none ∧
      RunResult.fileState (sdwarnPipeline soup) = none := by
  have hfind : soupFind tableTag soup = none := by
    rw [soupFind, nodesFindAll_nil tableTag soup h]
    rfl
  have h1 : senatePipeline soup = RunResult.tableNotFound := by
    unfold senatePipeline
    rw [hfind]
  have h2 : sdwarnPipeline soup = RunResult.tableNotFound := by
    unfold sdwarnPipeline
    rw [hfind]
  exact ⟨hfind, h1, h2, by rw [h1]; rfl, by rw [h2]; rfl⟩

/-- Witness for claim C2 on a fixture page without a table element. -/
theorem missing_table_not_found_witness :
    soupFind tableTag soupNoTable = none ∧
      senatePipeline soupNoTable = RunResult.tableNotFound ∧
      sdwarnPipeline soupNoTable = RunResult.tableNotFound ∧
      RunResult.fileState (senatePipeline soupNoTable) = none ∧
      RunResult.fileState (sdwarnPipeline soupNoTable) = none :=
  missing_table_not_found soupNoTable (by decide)

/-- Claim C3: every data row record emitted by an extractor has exactly as
many fields as the declared header list: three for the Senate dataset and
five for the SD WARN dataset (where the shipped loop emits no records, so
the statement holds for each of the none it emits). -/
theorem emitted_rows_match_header_length :
    senateHeaders.length = 3 ∧ sdwarnHeaders.length = 5 ∧
    (∀ row fields, senateExtract row = some fields →
        fields.length = senateHeaders.length) ∧
    (∀ rows fields, fields ∈ sdwarnLoop rows [] →
        fields.length = sdwarnHeaders.length) := by
  refine ⟨rfl, rfl, ?_, ?_⟩
  · intro row fields h
    rw [senateExtract] at h
    match hc : Node.findAll tdTag row with
    | c0 :: c1 :: c2 :: rest =>
        rw [hc] at h
        simp at h
        rw [← h]
        rfl
    | [] => rw [hc] at h; simp at h
    | [c0] => rw [hc] at h; simp at h
    | [c0, c1] => rw [hc] at h; simp at h
  · intro rows fields h
    rw [sdwarnLoop_acc] at h
    simp at h

/-- Witness for claim C3 on a concrete extracted row. -/
theorem emitted_rows_match_header_length_witness :
    ([lit "Jane", lit "Doe", lit "AP"] : List Str).length = senateHeaders.length :=
  emitted_rows_match_header_length.2.2.1 janeRow [lit "Jane", lit "Doe", lit "AP"] rfl

/-- Counterexample to claim C4: in the Senate notebook, extraction runs
inside the open-file write block, so when the second data row of this
fixture fails to extract, the run aborts leaving an incompletely written file
that already holds the header line and the first data row -- not the empty
file state the claim asserts. -/
theorem senate_extraction_failure_leftover_file :
    RunResult.fileState (senatePipeline soupPartialWrite) =
      some (csvLine senateHeaders ++ csvLine [lit "Jane", lit "Doe", lit "AP"]) ∧
    RunResult.fileState (senatePipeline soupPartialWrite) ≠ none ∧
    RunResult.fileState (senatePipeline soupPartialWrite) ≠ some (csvLine senateHeaders) := by
  refine ⟨by decide, by decide, by decide⟩

/-- Claim C4 as amended: a failure at any stage still aborts the run, and
in the SD WARN notebook the write step is a final one-shot scoped
operation, so no leftover file state arises there; but in the Senate
notebook extraction is interleaved with writing, so a failure while
extracting a data row leaves an incompletely written file holding the header
line and the data rows extracted before the failure. -/
theorem pipeline_failure_file_state (soup : List Node) (tbl hdr : Node)
    (good : List Node) (bad : Node) (rest : List Node)
    (hfind : soupFind tableTag soup = some tbl)
    (hrows : Node.findAll trTag tbl = hdr :: (good ++ bad :: rest))
    (hg : ∀ r ∈ good, 3 ≤ (Node.findAll tdTag r).length)
    (hb : senateExtract bad = none) :
    senatePipeline soup =
      RunResult.rowError (csvLine senateHeaders ++ writeCsv (good.map senateRow)) ∧
    ∀ s2 : List Node, sdwarnPipeline s2 = RunResult.tableNotFound ∨
      ∃ f, sdwarnPipeline s2 = RunResult.ok f := by
  constructor
  · unfold senatePipeline
    rw [hfind]
    dsimp only
    rw [hrows]
    simp only [List.drop_succ_cons, List.drop_zero]
    rw [senateWriteLoop_fail good bad rest _ hg hb]
  · intro s2
    unfold sdwarnPipeline
    cases hf : soupFind tableTag s2 with
    | none => exact Or.inl rfl
    | some tbl2 => exact Or.inr ⟨_, rfl⟩

/-- Witness for the amended claim C4 on the fixture with one good data row
followed by a malformed one. -/
theorem pipeline_failure_file_state_witness :
    senatePipeline soupPartialWrite =
      RunResult.rowError (csvLine senateHeaders ++ writeCsv ([janeRow].map senateRow)) ∧
    ∀ s2 : List Node, sdwarnPipeline s2 = RunResult.tableNotFound ∨
      ∃ f, sdwarnPipeline s2 = RunResult.ok f :=
  pipeline_failure_file_state soupPartialWrite tblPartial hdrRow [janeRow] shortRow []
    rfl rfl (by decide) rfl

/-- Claim C5: writing any list of records with the csv writer and reading
the file back with a standard CSV reader returns exactly the original
records, in order, even when fields contain the delimiter, the quote
character or line breaks. -/
theorem csv_write_read_round_trip (recs : List (List Str)) :
    parseRecords (writeCsv recs) = recs := by
  induction recs with
  | nil =>
      rw [writeCsv]
      simp only [List.map_nil, List.join]
      rw [parseRecords]
      simp
  | cons r rs ih =>
      have hw : writeCsv (r :: rs) = writeRec r ++ ('\r' :: '\n' :: writeCsv rs) := by
        rw [writeCsv, writeCsv]
        simp only [List.map_cons, List.join, csvLine, crlf]
        simp [List.append_assoc]
      rw [hw]
      by_cases hr : r = []
      · subst hr
        have h0 : writeRec ([] : List Str) = [] := by
          rw [writeRec]
          simp [joinComma]
        rw [h0, List.nil_append]
        rw [parseRecords]
        rw [if_neg (by simp)]
        rw [if_pos (by simp [startsNL])]
        have hd : dropNL ('\r' :: '\n' :: writeCsv rs) = writeCsv rs := by
          rw [dropNL]
          simp
        rw [hd, ih]
      · obtain ⟨c, t, hct, hc1, hc2⟩ := writeRec_head r hr
        rw [parseRecords]
        rw [if_neg (by simp [hct])]
        rw [if_neg (by simp [hct, startsNL, hc1, hc2])]
        rw [parseRecord_writeRec r hr ('\r' :: '\n' :: writeCsv rs) (by simp [nlStartB])]
        have hd : dropNL ('\r' :: '\n' :: writeCsv rs) = writeCsv rs := by
          rw [dropNL]
          simp
        dsimp only
        rw [hd, ih]

/-- Claim C6: cell text extraction trims surrounding whitespace -- every
field of an extracted record is the stripped visible text of its cell, and
in particular a cell carrying two leading spaces, a trailing space and a
newline around Acme Corp extracts to exactly Acme Corp. -/
theorem cell_text_whitespace_trimmed :
    strip (lit "  Acme Corp \n") = lit "Acme Corp" ∧
    ∀ row fields, senateExtract row = some fields →
      fields = ((Node.findAll tdTag row).take 3).map (fun c => strip (nodeText c)) := by
  refine ⟨by decide, ?_⟩
  intro row fields h
  simpa [senateRow] using senateExtract_some row fields h

/-- Witness for claim C6 on a row whose cells carry surrounding
whitespace. -/
theorem cell_text_whitespace_trimmed_witness :
    ([lit "Acme Corp", lit "B", lit "C"] : List Str) =
      ((Node.findAll tdTag messyRow).take 3).map (fun c => strip (nodeText c)) :=
  cell_text_whitespace_trimmed.2 messyRow [lit "Acme Corp", lit "B", lit "C"] rfl

/-- Claim C7: link resolution -- a relative reference is resolved against
the page base URL to an absolute URL (the spec example evaluates exactly as
stated), a row with no link yields the empty URL field, and a row with a
link yields the resolved href of that link. -/
theorem link_resolution_spec :
    urljoin (lit "https://example.gov/notices") (lit "/docs/report.pdf")
        = lit "https://example.gov/docs/report.pdf" ∧
    (∀ base row, Node.find aTag row = none → rowUrlField base row = []) ∧
    (∀ base row a href, Node.find aTag row = some a →
        Node.attr a hrefAttr = some href → rowUrlField base row = urljoin base href) := by
  refine ⟨by decide, ?_, ?_⟩
  · intro base row h
    rw [rowUrlField, h]
  · intro base row a href h1 h2
    rw [rowUrlField, h1]
    dsimp only
    rw [h2]
    rfl

/-- Witness for claim C7 on one row without a link and one row carrying the
spec example link. -/
theorem link_resolution_spec_witness :
    rowUrlField (lit "https://example.gov/notices") rowNoLink = [] ∧
    rowUrlField (lit "https://example.gov/notices") rowWithLink =
      urljoin (lit "https://example.gov/notices") (lit "/docs/report.pdf") :=
  ⟨link_resolution_spec.2.1 (lit "https://example.gov/notices") rowNoLink rfl,
   link_resolution_spec.2.2 (lit "https://example.gov/notices") rowWithLink aLink
     (lit "/docs/report.pdf") rfl rfl⟩

/-- Counterexample to claim C8: the Senate notebook opens its output file
with no encoding argument, so its encoding is the platform default rather
than a guaranteed utf-8; the claim that both write steps produce utf-8
output fails on that notebook. -/
theorem senate_open_encoding_unspecified :
    senateOpenArgs.encoding = none ∧
    ¬ (senateOpenArgs.encoding = some (lit "utf-8") ∧
       sdwarnOpenArgs.encoding = some (lit "utf-8")) := by
  refine ⟨rfl, by decide⟩

/-- Claim C8 as amended: both notebooks pass an empty newline argument for
cross-platform newline handling, and the SD WARN notebook requests utf-8
explicitly, but the Senate notebook passes no encoding argument, leaving
its output encoding to the platform default. -/
theorem open_args_encoding_newline :
    sdwarnOpenArgs.encoding = some (lit "utf-8") ∧
    sdwarnOpenArgs.newline = some [] ∧
    senateOpenArgs.newline = some [] ∧
    senateOpenArgs.encoding = none := by
  refine ⟨rfl, rfl, rfl, rfl⟩

/-- Claim C9: the shipped SD WARN extraction loop never extends the
collection list, so whenever the page has a table the pipeline writes a CSV
holding exactly the five-column header line and zero data rows. -/
theorem sdwarn_output_header_only (soup : List Node) (tbl : Node)
    (hfind : soupFind tableTag soup = some tbl) :
    sdwarnPipeline soup = RunResult.ok (csvLine sdwarnHeaders) ∧
    ∀ rows acc, sdwarnLoop rows acc = acc := by
  constructor
  · unfold sdwarnPipeline
    rw [hfind]
    dsimp only
    rw [sdwarnLoop_acc]
    simp [writeCsv]
  · exact sdwarnLoop_acc

/-- Witness for claim C9 on a concrete page with a one-row table. -/
theorem sdwarn_output_header_only_witness :
    sdwarnPipeline soupHeaderOnly = RunResult.ok (csvLine sdwarnHeaders) ∧
    ∀ rows acc, sdwarnLoop rows acc = acc :=
  sdwarn_output_header_only soupHeaderOnly tblHeaderOnly rfl

/-- Claim C10: when the located table has zero rows or only the single
header row, slicing off the first row leaves nothing and the Senate
pipeline terminates normally with a CSV holding only the header line. -/
theorem senate_short_table_header_only (soup : List Node) (tbl : Node)
    (hfind : soupFind tableTag soup = some tbl)
    (hlen : (Node.findAll trTag tbl).length ≤ 1) :
    senatePipeline soup = RunResult.ok (csvLine senateHeaders) := by
  unfold senatePipeline
  rw [hfind]
  dsimp only
  rw [List.drop_eq_nil_of_le hlen]
  rfl

/-- Witness for claim C10 on a table holding only its header row. -/
theorem senate_short_table_header_only_witness :
    senatePipeline soupHeaderOnly = RunResult.ok (csvLine senateHeaders) :=
  senate_short_table_header_only soupHeaderOnly tblHeaderOnly rfl (by decide)
